import Mathlib

/-!
Verification of the multi-step form wizard (MultiStepForm.tsx, schema.ts,
Step1/Step2/Step3) as a shallow embedding.

The embedding follows the source:
- formSchema (schema.ts): name is a string of length at least 2 with message
  "Name too short"; email is a string matching the zod email regex with message
  "Invalid email"; age is a number (null and NaN are type mismatches) at least
  18 with message "Must be at least 18".
- MultiStepForm.tsx: a React component holding the wizard state. The step
  index lives in useState, the field values and errors in the react-hook-form
  store. onNext triggers validation of fieldsPerStep[step] and advances when
  those fields are valid; onBack decrements the step; the submit button runs
  handleSubmit(onSubmit), a full-schema validation that calls onSubmit with the
  parsed data only when every field is valid.
- The navigation guards are the conditional rendering in the JSX: the Back
  button exists only when step > 0, the Next button only when
  step < steps.length - 1, and the Submit button replaces Next on the last
  step. A click event on a button that is not rendered cannot occur, so the
  event-level model treats such an event as the identity.
-/

namespace MultiStepForm

/-- Field names declared by formSchema in schema.ts. -/
inductive FieldName
  | name
  | email
  | age
deriving DecidableEq, Repr, Fintype

/-- Raw value of the age field. The number input is registered with
valueAsNumber, so its raw value is a number, or NaN for an empty input, or the
declared default null. Numbers are modelled as integers; every value the
claims mention is an integer. -/
inductive AgeValue
  | num (n : Int)
  | null
  | nan
deriving DecidableEq, Repr

/-- Field values held by the react-hook-form store (defaultValues shape in
MultiStepForm.tsx: name and email are strings, age is a number or null). -/
structure Values where
  name : String
  email : String
  age : AgeValue
deriving DecidableEq, Repr

/-- Per-field error messages held by the react-hook-form store (formState
errors): for each field, the message of its current error, if any. -/
structure Errors where
  name : Option String
  email : Option String
  age : Option String
deriving DecidableEq, Repr

/-- Validation of the name field: z.string().min(2, "Name too short"). -/
def validateName (s : String) : Option String :=
  if s.length < 2 then some "Name too short" else none

/-- Characters allowed in the local part of the zod email regex. -/
def isLocalChar (c : Char) : Bool :=
  c.isAlpha || c.isDigit || c = '_' || c = Char.ofNat 39 || c = '+' || c = '-' || c = '.'

/-- Characters allowed as the last character of the local part (the class
right before the at sign in the zod email regex: letters, digits, underscore,
plus, minus; the dot and the apostrophe are excluded there). -/
def isLocalEndChar (c : Char) : Bool :=
  c.isAlpha || c.isDigit || c = '_' || c = '+' || c = '-'

/-- True when the character list contains no two consecutive dots (the
negative lookahead in the zod email regex). -/
def noDoubleDot : List Char → Bool
  | [] => true
  | [_] => true
  | a :: b :: rest => !(a = '.' && b = '.') && noDoubleDot (b :: rest)

/-- True when the last character of the list satisfies isLocalEndChar. -/
def lastIsLocalEnd : List Char → Bool
  | [] => false
  | [c] => isLocalEndChar c
  | _ :: c :: rest => lastIsLocalEnd (c :: rest)

/-- Local part of the zod email regex: nonempty, drawn from the local
character class, not starting with a dot, no two consecutive dots, and
ending in the restricted end class. -/
def localPartOk (l : List Char) : Bool :=
  match l with
  | [] => false
  | c :: _ => !(c = '.') && l.all isLocalChar && noDoubleDot l && lastIsLocalEnd l

/-- One domain label of the zod email regex: a letter or digit followed by
letters, digits or hyphens. -/
def labelOk (l : List Char) : Bool :=
  match l with
  | [] => false
  | c :: rest => (c.isAlpha || c.isDigit) && rest.all (fun d => d.isAlpha || d.isDigit || d = '-')

/-- Final domain label of the zod email regex: at least two letters. -/
def tldOk (l : List Char) : Bool :=
  2 ≤ l.length && l.all Char.isAlpha

/-- Split a character list at every occurrence of a separator. Always returns
at least one (possibly empty) segment, like the string split of the host
language. -/
def splitOnChar (sep : Char) : List Char → List (List Char)
  | [] => [[]]
  | c :: rest =>
    match splitOnChar sep rest with
    | [] => if c = sep then [[], [c]] else [[c]]
    | h :: t => if c = sep then [] :: h :: t else (c :: h) :: t

/-- Domain of the zod email regex: one or more labels separated by dots,
the final one being the letters-only top-level label. -/
def domainOk (d : List Char) : Bool :=
  let parts := splitOnChar '.' d
  2 ≤ parts.length
    && parts.dropLast.all labelOk
    && tldOk (parts.getLastD [])

/-- The zod email check used by z.string().email: exactly one at sign, with
the local part and domain constraints of the zod email regex. -/
def zodEmailCheck (s : String) : Bool :=
  match splitOnChar '@' s.data with
  | [localPart, domain] => localPartOk localPart && domainOk domain
  | _ => false

/-- Validation of the email field: z.string().email("Invalid email"). -/
def validateEmail (s : String) : Option String :=
  if zodEmailCheck s then none else some "Invalid email"

/-- Validation of the age field: z.number().min(18, "Must be at least 18").
A null or NaN raw value fails the z.number() type check first, producing the
default zod invalid-type message rather than the min-constraint message. -/
def validateAge : AgeValue → Option String
  | .null => some "Expected number, received null"
  | .nan => some "Expected number, received nan"
  | .num n => if n < 18 then some "Must be at least 18" else none

/-- Validation outcome of one named field against formSchema, over the
current values. -/
def validateField (f : FieldName) (v : Values) : Option String :=
  match f with
  | .name => validateName v.name
  | .email => validateEmail v.email
  | .age => validateAge v.age

/-- Read one field error entry from the store. -/
def getErr (f : FieldName) (e : Errors) : Option String :=
  match f with
  | .name => e.name
  | .email => e.email
  | .age => e.age

/-- Overwrite one field error entry in the store. -/
def setErr (f : FieldName) (m : Option String) (e : Errors) : Errors :=
  match f with
  | .name => { e with name := m }
  | .email => { e with email := m }
  | .age => { e with age := m }

/-- Effect of methods.trigger(fieldNames) on the error store: each requested
field error entry is overwritten with its validation outcome against
formSchema; entries of fields not requested are untouched. -/
def applyTrigger (fs : List FieldName) (v : Values) (e : Errors) : Errors :=
  fs.foldl (fun acc f => setErr f (validateField f v) acc) e

/-- Return value of methods.trigger(fieldNames): true when every requested
field is valid over the current values. -/
def fieldsValid (fs : List FieldName) (v : Values) : Bool :=
  fs.all fun f => (validateField f v).isNone

/-- The steps array of MultiStepForm.tsx. -/
def steps : List String := ["Basic Info", "Contact", "Age"]

/-- Total number of steps: steps.length. -/
def totalSteps : Nat := steps.length

/-- The fieldsPerStep table inside onNext: step 0 validates name, step 1
validates email, step 2 validates age. -/
def fieldsPerStep : List (List FieldName) := [[.name], [.email], [.age]]

/-- Field name set declared by formSchema, in declaration order. -/
def schemaFields : List FieldName := [.name, .email, .age]

/-- Whole component state: the step index from useState plus the
react-hook-form store contents. The step index is an integer, as in the
source. -/
structure MState where
  step : Int
  values : Values
  errors : Errors
deriving DecidableEq, Repr

/-- The defaultValues passed to useForm. -/
def defaultValues : Values := { name := "", email := "", age := .null }

/-- State at mount: step 0, default values, no errors. -/
def initState : MState :=
  { step := 0, values := defaultValues, errors := { name := none, email := none, age := none } }

/-- The onNext handler: trigger validation of fieldsPerStep[step] and, when
those fields are valid, advance the step by one. The getD default models the
out-of-range array read, which is unreachable because the Next button is only
rendered when step < steps.length - 1. -/
def onNext (s : MState) : MState :=
  let fields := fieldsPerStep.getD s.step.toNat []
  { s with
    errors := applyTrigger fields s.values s.errors,
    step := if fieldsValid fields s.values then s.step + 1 else s.step }

/-- The onBack handler: decrement the step, touching nothing else. -/
def onBack (s : MState) : MState :=
  { s with step := s.step - 1 }

/-- Full-schema validation, as run by the zodResolver under handleSubmit:
every field of formSchema is validated at once. -/
def fullValidate (v : Values) : Errors :=
  { name := validateName v.name
    email := validateEmail v.email
    age := validateAge v.age }

/-- True when full-schema validation yields zero errors. -/
def fullValid (v : Values) : Bool :=
  (validateName v.name).isNone && (validateEmail v.email).isNone && (validateAge v.age).isNone

/-- Effect of submitting the form through methods.handleSubmit(onSubmit):
full-schema validation runs, the error store is replaced by its outcome, and
onSubmit receives the values snapshot exactly when every field is valid (for
this schema the parsed data equals the raw values). The returned option is
the snapshot delivered to onSubmit, none when onSubmit is not invoked. -/
def doSubmit (s : MState) : MState × Option Values :=
  ({ s with errors := fullValidate s.values },
   if fullValid s.values then some s.values else none)

/-- User events the component reacts to: clicks on the three navigation
buttons, edits of a field value, and blurs that make the onTouched mode
re-validate the blurred field. -/
inductive Event
  | nextClick
  | backClick
  | submitClick
  | setName (v : String)
  | setEmail (v : String)
  | setAge (v : AgeValue)
  | blurName
  | blurEmail
  | blurAge
deriving DecidableEq, Repr

/-- One event step of the component. The click guards are the conditional
rendering in the JSX: Back exists only when step > 0, Next only when
step < steps.length - 1, and Submit only otherwise; a click on an absent
button is the identity. The option component is the snapshot delivered to
onSubmit, none when onSubmit is not invoked by the event. -/
def handleEvent (s : MState) (e : Event) : MState × Option Values :=
  match e with
  | .nextClick => if s.step < (totalSteps : Int) - 1 then (onNext s, none) else (s, none)
  | .backClick => if 0 < s.step then (onBack s, none) else (s, none)
  | .submitClick => if s.step < (totalSteps : Int) - 1 then (s, none) else doSubmit s
  | .setName v => ({ s with values := { s.values with name := v } }, none)
  | .setEmail v => ({ s with values := { s.values with email := v } }, none)
  | .setAge v => ({ s with values := { s.values with age := v } }, none)
  | .blurName => ({ s with errors := { s.errors with name := validateName s.values.name } }, none)
  | .blurEmail => ({ s with errors := { s.errors with email := validateEmail s.values.email } }, none)
  | .blurAge => ({ s with errors := { s.errors with age := validateAge s.values.age } }, none)

/-- Run a sequence of events from a state. -/
def run (s : MState) (es : List Event) : MState :=
  es.foldl (fun st e => (handleEvent st e).1) s

/-- Concrete states used to instantiate guarded theorems. -/
def sampleStep0 : MState :=
  { step := 0
    values := { name := "Al", email := "", age := .null }
    errors := { name := none, email := none, age := none } }

/-- The sample state moved to step 1. -/
def sampleStep1 : MState := { sampleStep0 with step := 1 }

/-- The sample state moved to step 2. -/
def sampleStep2 : MState := { sampleStep0 with step := 2 }

lemma getErr_setErr_self (f : FieldName) (m : Option String) (e : Errors) :
    getErr f (setErr f m e) = m := by
  cases f <;> rfl

lemma getErr_setErr_of_ne (f g : FieldName) (m : Option String) (e : Errors)
    (h : g ≠ f) : getErr g (setErr f m e) = getErr g e := by
  cases f <;> cases g <;> first | rfl | exact absurd rfl h

lemma applyTrigger_not_mem (fs : List FieldName) (v : Values) (g : FieldName) :
    ∀ e : Errors, g ∉ fs → getErr g (applyTrigger fs v e) = getErr g e := by
  induction fs with
  | nil => intro e _; rfl
  | cons f rest ih =>
    intro e h
    simp only [List.mem_cons, not_or] at h
    show getErr g (applyTrigger rest v (setErr f (validateField f v) e)) = getErr g e
    rw [ih _ h.2, getErr_setErr_of_ne f g _ e h.1]

lemma applyTrigger_mem (fs : List FieldName) (v : Values) (g : FieldName) :
    ∀ e : Errors, g ∈ fs → getErr g (applyTrigger fs v e) = validateField g v := by
  induction fs with
  | nil => intro e h; cases h
  | cons f rest ih =>
    intro e h
    show getErr g (applyTrigger rest v (setErr f (validateField f v) e)) = validateField g v
    by_cases hr : g ∈ rest
    · exact ih _ hr
    · have hgf : g = f := by
        rcases List.mem_cons.mp h with h' | h'
        · exact h'
        · exact absurd h' hr
      subst hgf
      rw [applyTrigger_not_mem rest v g _ hr, getErr_setErr_self]

lemma handleEvent_step_bounds (s : MState) (e : Event)
    (h0 : 0 ≤ s.step) (h1 : s.step < (totalSteps : Int)) :
    0 ≤ (handleEvent s e).1.step ∧ (handleEvent s e).1.step < (totalSteps : Int) := by
  have ht : (totalSteps : Int) = 3 := rfl
  cases e with
  | nextClick =>
    by_cases hc : s.step < (totalSteps : Int) - 1
    · have hg : (handleEvent s Event.nextClick).1 = onNext s := by
        dsimp only [handleEvent]
        rw [if_pos hc]
      rw [hg]
      dsimp only [onNext]
      split_ifs <;> constructor <;> omega
    · have hg : (handleEvent s Event.nextClick).1 = s := by
        dsimp only [handleEvent]
        rw [if_neg hc]
      rw [hg]
      exact ⟨h0, h1⟩
  | backClick =>
    by_cases hc : 0 < s.step
    · have hg : (handleEvent s Event.backClick).1 = onBack s := by
        dsimp only [handleEvent]
        rw [if_pos hc]
      rw [hg]
      dsimp only [onBack]
      constructor <;> omega
    · have hg : (handleEvent s Event.backClick).1 = s := by
        dsimp only [handleEvent]
        rw [if_neg hc]
      rw [hg]
      exact ⟨h0, h1⟩
  | submitClick =>
    by_cases hc : s.step < (totalSteps : Int) - 1
    · have hg : (handleEvent s Event.submitClick).1 = s := by
        dsimp only [handleEvent]
        rw [if_pos hc]
      rw [hg]
      exact ⟨h0, h1⟩
    · have hg : (handleEvent s Event.submitClick).1 = (doSubmit s).1 := by
        dsimp only [handleEvent]
        rw [if_neg hc]
      rw [hg]
      exact ⟨h0, h1⟩
  | setName v => exact ⟨h0, h1⟩
  | setEmail v => exact ⟨h0, h1⟩
  | setAge v => exact ⟨h0, h1⟩
  | blurName => exact ⟨h0, h1⟩
  | blurEmail => exact ⟨h0, h1⟩
  | blurAge => exact ⟨h0, h1⟩

lemma exists_invalid_of_not_fullValid (v : Values) (hv : fullValid v = false) :
    ∃ f : FieldName, (validateField f v).isSome = true := by
  cases hxn : validateName v.name with
  | some m => exact ⟨.name, by simp [validateField, hxn]⟩
  | none =>
    cases hxe : validateEmail v.email with
    | some m => exact ⟨.email, by simp [validateField, hxe]⟩
    | none =>
      cases hxa : validateAge v.age with
      | some m => exact ⟨.age, by simp [validateField, hxa]⟩
      | none =>
        exfalso
        simp only [fullValid, hxn, hxe, hxa] at hv
        simp at hv

lemma run_step_bounds (es : List Event) :
    ∀ s : MState, 0 ≤ s.step → s.step < (totalSteps : Int) →
      0 ≤ (run s es).step ∧ (run s es).step < (totalSteps : Int) := by
  induction es with
  | nil => intro s h0 h1; exact ⟨h0, h1⟩
  | cons e rest ih =>
    intro s h0 h1
    have hb := handleEvent_step_bounds s e h0 h1
    exact ih _ hb.1 hb.2

/-- C1: invoking Next within its guard validates exactly the fields of the
current step from the fieldsPerStep table (the error store becomes the
trigger outcome over those fields, values untouched), and the step advances
by exactly one if and only if every validated field of that set is
error-free; otherwise the step is unchanged. -/
theorem next_validates_current_step (s : MState)
    (h0 : 0 ≤ s.step) (h : s.step < (totalSteps : Int) - 1) :
    (handleEvent s Event.nextClick).1.values = s.values
  ∧ (handleEvent s Event.nextClick).1.errors
      = applyTrigger (fieldsPerStep.getD s.step.toNat []) s.values s.errors
  ∧ ((handleEvent s Event.nextClick).1.step = s.step + 1
      ↔ fieldsValid (fieldsPerStep.getD s.step.toNat []) s.values = true)
  ∧ (fieldsValid (fieldsPerStep.getD s.step.toNat []) s.values = false
      → (handleEvent s Event.nextClick).1.step = s.step) := by
  have hg : (handleEvent s Event.nextClick).1 = onNext s := by
    dsimp only [handleEvent]
    rw [if_pos h]
  rw [hg]
  dsimp only [onNext]
  refine ⟨rfl, rfl, ?_, ?_⟩
  · by_cases hv : fieldsValid (fieldsPerStep.getD s.step.toNat []) s.values = true
    · rw [if_pos hv]
      exact iff_of_true rfl hv
    · rw [if_neg hv]
      constructor
      · intro h'
        omega
      · intro h'
        exact absurd h' hv
  · intro hv
    rw [if_neg (by rw [hv]; exact Bool.false_ne_true)]

/-- Witness for C1 at a concrete step-0 state with a valid name. -/
theorem next_validates_current_step_witness :
    (0 ≤ sampleStep0.step ∧ sampleStep0.step < (totalSteps : Int) - 1)
  ∧ ((handleEvent sampleStep0 Event.nextClick).1.values = sampleStep0.values
  ∧ (handleEvent sampleStep0 Event.nextClick).1.errors
      = applyTrigger (fieldsPerStep.getD sampleStep0.step.toNat []) sampleStep0.values
          sampleStep0.errors
  ∧ ((handleEvent sampleStep0 Event.nextClick).1.step = sampleStep0.step + 1
      ↔ fieldsValid (fieldsPerStep.getD sampleStep0.step.toNat []) sampleStep0.values = true)
  ∧ (fieldsValid (fieldsPerStep.getD sampleStep0.step.toNat []) sampleStep0.values = false
      → (handleEvent sampleStep0 Event.nextClick).1.step = sampleStep0.step)) :=
  ⟨⟨by decide, by decide⟩, next_validates_current_step sampleStep0 (by decide) (by decide)⟩

/-- C2: at the last step, Submit delivers the full values snapshot to the
submission handler if and only if full-schema validation yields zero errors;
on any failure the step is unchanged, the handler is not invoked, and at
least one field error is populated in the store. -/
theorem submit_iff_fullValid (s : MState) (h : s.step = (totalSteps : Int) - 1) :
    ((handleEvent s Event.submitClick).2 = some s.values ↔ fullValid s.values = true)
  ∧ (handleEvent s Event.submitClick).1.step = s.step
  ∧ (handleEvent s Event.submitClick).1.values = s.values
  ∧ (fullValid s.values = false
      → (handleEvent s Event.submitClick).2 = none
        ∧ ∃ f : FieldName, (getErr f (handleEvent s Event.submitClick).1.errors).isSome) := by
  have hng : ¬ s.step < (totalSteps : Int) - 1 := by omega
  have hg : handleEvent s Event.submitClick = doSubmit s := by
    dsimp only [handleEvent]
    rw [if_neg hng]
  rw [hg]
  dsimp only [doSubmit]
  refine ⟨?_, rfl, rfl, ?_⟩
  · by_cases hv : fullValid s.values = true
    · rw [if_pos hv]
      simp [hv]
    · rw [if_neg hv]
      simp [hv]
  · intro hv
    refine ⟨by rw [if_neg (by simp [hv])], ?_⟩
    obtain ⟨f, hf⟩ := exists_invalid_of_not_fullValid s.values hv
    refine ⟨f, ?_⟩
    cases f <;> exact hf

/-- Witness for C2 at a concrete last-step state whose email is empty. -/
theorem submit_iff_fullValid_witness :
    (sampleStep2.step = (totalSteps : Int) - 1)
  ∧ (((handleEvent sampleStep2 Event.submitClick).2 = some sampleStep2.values
      ↔ fullValid sampleStep2.values = true)
  ∧ (handleEvent sampleStep2 Event.submitClick).1.step = sampleStep2.step
  ∧ (handleEvent sampleStep2 Event.submitClick).1.values = sampleStep2.values
  ∧ (fullValid sampleStep2.values = false
      → (handleEvent sampleStep2 Event.submitClick).2 = none
        ∧ ∃ f : FieldName,
            (getErr f (handleEvent sampleStep2 Event.submitClick).1.errors).isSome)) :=
  ⟨by decide, submit_iff_fullValid sampleStep2 (by decide)⟩

/-- C3: from the initial state, every sequence of Next, Back, Submit, edit
and blur events keeps the step index within bounds, and a Next click at the
last step or a Back click at step 0 (clicks on buttons the component does not
render there) leave the whole state unchanged. -/
theorem nav_invariant_and_noops :
    (∀ es : List Event,
        0 ≤ (run initState es).step ∧ (run initState es).step < (totalSteps : Int))
  ∧ (∀ s : MState, s.step = (totalSteps : Int) - 1
      → (handleEvent s Event.nextClick).1 = s)
  ∧ (∀ s : MState, s.step = 0 → (handleEvent s Event.backClick).1 = s) := by
  refine ⟨fun es => run_step_bounds es initState (by decide) (by decide), ?_, ?_⟩
  · intro s h
    have hng : ¬ s.step < (totalSteps : Int) - 1 := by omega
    dsimp only [handleEvent]
    rw [if_neg hng]
  · intro s h
    have hng : ¬ 0 < s.step := by omega
    dsimp only [handleEvent]
    rw [if_neg hng]

/-- Witness for C3: a concrete event sequence, a Next click at step 2 and a
Back click at step 0. -/
theorem nav_invariant_and_noops_witness :
    (0 ≤ (run initState [Event.nextClick, Event.backClick]).step
      ∧ (run initState [Event.nextClick, Event.backClick]).step < (totalSteps : Int))
  ∧ (sampleStep2.step = (totalSteps : Int) - 1
      ∧ (handleEvent sampleStep2 Event.nextClick).1 = sampleStep2)
  ∧ (sampleStep0.step = 0 ∧ (handleEvent sampleStep0 Event.backClick).1 = sampleStep0) :=
  ⟨nav_invariant_and_noops.1 [Event.nextClick, Event.backClick],
   ⟨by decide, nav_invariant_and_noops.2.1 sampleStep2 (by decide)⟩,
   ⟨by decide, nav_invariant_and_noops.2.2 sampleStep0 (by decide)⟩⟩

/-- C4: when the step is positive, a Back click decrements the step by one,
performs no validation, and leaves every stored value and error unchanged. -/
theorem back_decrements (s : MState) (h : 0 < s.step) :
    (handleEvent s Event.backClick).1.step = s.step - 1
  ∧ (handleEvent s Event.backClick).1.values = s.values
  ∧ (handleEvent s Event.backClick).1.errors = s.errors
  ∧ (handleEvent s Event.backClick).2 = none := by
  simp [handleEvent, if_pos h, onBack]

/-- Witness for C4 at a concrete step-1 state. -/
theorem back_decrements_witness :
    (0 < sampleStep1.step)
  ∧ ((handleEvent sampleStep1 Event.backClick).1.step = sampleStep1.step - 1
  ∧ (handleEvent sampleStep1 Event.backClick).1.values = sampleStep1.values
  ∧ (handleEvent sampleStep1 Event.backClick).1.errors = sampleStep1.errors
  ∧ (handleEvent sampleStep1 Event.backClick).2 = none) :=
  ⟨by decide, back_decrements sampleStep1 (by decide)⟩

/-- C5: per-step validation is framed to the requested field set: a trigger
run overwrites exactly the error entries of the requested fields with their
validation outcome and leaves every other error entry untouched, and editing
or blurring a field never alters the error entry of a different field. -/
theorem validation_frame :
    (∀ (fs : List FieldName) (v : Values) (e : Errors) (g : FieldName),
        g ∉ fs → getErr g (applyTrigger fs v e) = getErr g e)
  ∧ (∀ (fs : List FieldName) (v : Values) (e : Errors) (g : FieldName),
        g ∈ fs → getErr g (applyTrigger fs v e) = validateField g v)
  ∧ (∀ (s : MState) (x : String) (g : FieldName), g ≠ FieldName.name →
        getErr g (handleEvent s (Event.setName x)).1.errors = getErr g s.errors
      ∧ getErr g (handleEvent s Event.blurName).1.errors = getErr g s.errors)
  ∧ (∀ (s : MState) (x : String) (g : FieldName), g ≠ FieldName.email →
        getErr g (handleEvent s (Event.setEmail x)).1.errors = getErr g s.errors
      ∧ getErr g (handleEvent s Event.blurEmail).1.errors = getErr g s.errors)
  ∧ (∀ (s : MState) (x : AgeValue) (g : FieldName), g ≠ FieldName.age →
        getErr g (handleEvent s (Event.setAge x)).1.errors = getErr g s.errors
      ∧ getErr g (handleEvent s Event.blurAge).1.errors = getErr g s.errors) := by
  refine ⟨fun fs v e g h => applyTrigger_not_mem fs v g e h,
          fun fs v e g h => applyTrigger_mem fs v g e h, ?_, ?_, ?_⟩
  · intro s x g h
    exact ⟨rfl, by cases g <;> first | rfl | exact absurd rfl h⟩
  · intro s x g h
    exact ⟨rfl, by cases g <;> first | rfl | exact absurd rfl h⟩
  · intro s x g h
    exact ⟨rfl, by cases g <;> first | rfl | exact absurd rfl h⟩

/-- Witness for C5: the email error entry is untouched by a trigger of the
name field, the name entry is overwritten by it, and a name edit leaves the
email error entry unchanged. -/
theorem validation_frame_witness :
    (FieldName.email ∉ ([FieldName.name] : List FieldName)
      ∧ getErr FieldName.email
          (applyTrigger [FieldName.name] defaultValues
            { name := none, email := none, age := none })
        = getErr FieldName.email
            { name := none, email := none, age := none })
  ∧ (FieldName.name ∈ ([FieldName.name] : List FieldName)
      ∧ getErr FieldName.name
          (applyTrigger [FieldName.name] defaultValues
            { name := none, email := none, age := none })
        = validateField FieldName.name defaultValues)
  ∧ (FieldName.email ≠ FieldName.name
      ∧ (getErr FieldName.email (handleEvent initState (Event.setName "x")).1.errors
          = getErr FieldName.email initState.errors
        ∧ getErr FieldName.email (handleEvent initState Event.blurName).1.errors
          = getErr FieldName.email initState.errors)) :=
  ⟨⟨by decide, validation_frame.1 [FieldName.name] defaultValues
      { name := none, email := none, age := none } FieldName.email (by decide)⟩,
   ⟨by decide, validation_frame.2.1 [FieldName.name] defaultValues
      { name := none, email := none, age := none } FieldName.name (by decide)⟩,
   ⟨by decide, validation_frame.2.2.1 initState "x" FieldName.email (by decide)⟩⟩

/-- C6: the fieldsPerStep table partitions the field names of formSchema:
its union is exactly the schema field set and every field name occurs in
exactly one step list. -/
theorem fieldsPerStep_partition :
    (∀ f : FieldName, f ∈ fieldsPerStep.flatten ↔ f ∈ schemaFields)
  ∧ (∀ f : FieldName, (fieldsPerStep.countP fun l => decide (f ∈ l)) = 1)
  ∧ (∀ f : FieldName, fieldsPerStep.flatten.count f = 1) := by
  decide

/-- C7: at step 0 with an empty name, a Next click leaves the step at 0 and
records the error message of the name field as the min-constraint message of
the schema, whatever the other values and errors are. -/
theorem next_empty_name (em : String) (ag : AgeValue) (e : Errors) :
    (handleEvent ⟨0, ⟨"", em, ag⟩, e⟩ Event.nextClick).1.step = 0
  ∧ (handleEvent ⟨0, ⟨"", em, ag⟩, e⟩ Event.nextClick).1.errors.name
      = some "Name too short" := by
  constructor
  · rfl
  · rfl

/-- C8: at the last step with name Al, email a at b.com and age 20, a Submit
click passes full-schema validation, clears every error entry, and delivers
exactly that values snapshot to the submission handler. -/
theorem submit_scenario_success (e : Errors) :
    handleEvent ⟨2, ⟨"Al", "a@b.com", AgeValue.num 20⟩, e⟩ Event.submitClick
      = (⟨2, ⟨"Al", "a@b.com", AgeValue.num 20⟩, ⟨none, none, none⟩⟩,
         some ⟨"Al", "a@b.com", AgeValue.num 20⟩) := by
  rfl

/-- C9: with the declared default values (empty name, empty email, null age)
every one of the three fields fails full-schema validation, and a Submit
click on an untouched form never delivers a snapshot to the handler, at any
step. -/
theorem untouched_form_never_submits :
    (validateName defaultValues.name).isSome = true
  ∧ (validateEmail defaultValues.email).isSome = true
  ∧ (validateAge defaultValues.age).isSome = true
  ∧ ∀ (st : Int) (e : Errors),
      (handleEvent ⟨st, defaultValues, e⟩ Event.submitClick).2 = none := by
  refine ⟨by decide, by decide, by decide, ?_⟩
  intro st e
  simp only [handleEvent]
  split
  · rfl
  · show (doSubmit _).2 = none
    have hv : fullValid defaultValues = false := by decide
    simp [doSubmit, hv]

/-- C10: a null or NaN age value fails the z.number() type check with the
default zod invalid-type message, not the declared min-constraint message;
the declared message is produced exactly for numbers below 18. -/
theorem age_invalid_type_message :
    validateAge AgeValue.null = some "Expected number, received null"
  ∧ validateAge AgeValue.nan = some "Expected number, received nan"
  ∧ (∀ n : Int, validateAge (AgeValue.num n) = some "Must be at least 18" ↔ n < 18)
  ∧ validateAge AgeValue.null ≠ some "Must be at least 18"
  ∧ validateAge AgeValue.nan ≠ some "Must be at least 18" := by
  refine ⟨rfl, rfl, ?_, by decide, by decide⟩
  intro n
  by_cases h : n < 18
  · simp [validateAge, h]
  · simp [validateAge, h]

/-- Witness for C10: the min-constraint message appears exactly for an age
below the bound, checked at 15. -/
theorem age_invalid_type_message_witness :
    validateAge (AgeValue.num 15) = some "Must be at least 18" ↔ (15 : Int) < 18 :=
  age_invalid_type_message.2.2.1 15

end MultiStepForm
